import Mathlib

/-!
Loop trip-count analysis (`lib/Analysis/LoopAnalysis.cpp`).

A shallow embedding of `mlir::getTripCount`, `mlir::getConstantTripCount` and
`mlir::getLargestDivisorOfTripCount`, followed by theorems about them.

Conventions of the embedding.

* `int64_t` values are integers; every arithmetic result the source stores in an
  `int64_t` goes through `wrapInt64` (two's-complement wraparound), every
  conversion to `uint64_t` through `toUInt64`.
* A null `AffineExpr *` is `none`.
* An operation the C++ leaves without a value (indexing past the end of an
  operand list, dividing by a zero step, dividing `-2^63` by `-1`) is a `Fault`.
* `simplifyAffineExpr` and `AffineExpr::getLargestKnownDivisor` live in other
  translation units; the functions below take them as parameters.
-/

namespace mlir

/-! ## Machine integers -/

/-- Smallest `int64_t`. -/
def INT64_MIN : Int := -9223372036854775808

/-- Largest `int64_t`. -/
def INT64_MAX : Int := 9223372036854775807

/-- Largest `unsigned long` (64-bit), the value of `ULONG_MAX` from `<climits>`. -/
def ULONG_MAX : Nat := 18446744073709551615

/-- Membership in the `int64_t` range. -/
def isInt64 (x : Int) : Prop := INT64_MIN ≤ x ∧ x ≤ INT64_MAX

instance (x : Int) : Decidable (isInt64 x) := by
  unfold isInt64; exact inferInstance

/-- Two's-complement reduction of an integer to `int64_t`. -/
def wrapInt64 (x : Int) : Int :=
  (x + 9223372036854775808) % 18446744073709551616 - 9223372036854775808

/-- Conversion of an integer to `uint64_t` (`static_cast<uint64_t>`). -/
def toUInt64 (x : Int) : Nat := (x % 18446744073709551616).toNat

/-! ## Affine expressions, maps, bounds and loops -/

/-- Modelled from the spec: the binary operator kinds of `AffineBinaryOpExpr`
(declared in `mlir/IR/AffineExpr.h`, which is not among the sources). -/
inductive AffineExprKind where
  | Add
  | Sub
  | Mul
  | FloorDiv
  | CeilDiv
  | Mod
  deriving DecidableEq, Repr

/-- Modelled from the spec: the affine expression tree of
`mlir/IR/AffineExpr.h` (not among the sources): an integer constant
(`AffineConstantExpr`), a dimension or symbol reference, or a binary node. -/
inductive AffineExpr where
  | Constant (value : Int)
  | DimRef (index : Nat)
  | SymbolRef (index : Nat)
  | BinaryOp (kind : AffineExprKind) (lhs rhs : AffineExpr)
  deriving DecidableEq, Repr

/-- Modelled from the spec: `AffineConstantExpr::get(constant, context)` builds
the leaf `Constant(value)`, whose value is a signed 64-bit integer. -/
def AffineConstantExpr.get (constant : Int) : AffineExpr :=
  .Constant (wrapInt64 constant)

namespace AffineBinaryOpExpr

/-- Modelled from the spec: `AffineBinaryOpExpr::getAdd(expr, constant, context)`
builds the node `expr + constant`; construction does not simplify. -/
def getAdd (lhs : AffineExpr) (rhs : Int) : AffineExpr :=
  .BinaryOp .Add lhs (.Constant rhs)

/-- Modelled from the spec: `AffineBinaryOpExpr::getSub(lhs, rhs, context)`
builds the node `lhs - rhs`; construction does not simplify. -/
def getSub (lhs rhs : AffineExpr) : AffineExpr :=
  .BinaryOp .Sub lhs rhs

/-- Modelled from the spec: `AffineBinaryOpExpr::getCeilDiv(expr, constant, context)`
builds the node `expr ceildiv constant`; construction does not simplify. -/
def getCeilDiv (lhs : AffineExpr) (rhs : Int) : AffineExpr :=
  .BinaryOp .CeilDiv lhs (.Constant rhs)

end AffineBinaryOpExpr

/-- Modelled from the spec: an affine map (`mlir/IR/AffineMap.h`, not among the
sources): a number of dimensions, a number of symbols and an ordered list of
result expressions. -/
structure AffineMap where
  getNumDims : Nat
  getNumSymbols : Nat
  results : List AffineExpr
  deriving DecidableEq, Repr

/-- The call `map->getNumResults()`. -/
def AffineMap.getNumResults (m : AffineMap) : Nat := m.results.length

/-- The call `map->getResult(idx)`; `none` when `idx` is past the end. -/
def AffineMap.getResult (m : AffineMap) (idx : Nat) : Option AffineExpr := m.results.get? idx

/-- Modelled from the spec: a non-constant loop bound (`AffineBound` of
`mlir/IR/Statements.h`, not among the sources): an affine map and the ordered
list of its operand bindings. An operand is represented by the identity of the
value it refers to (what `getStmtOperand(i).get()` returns). -/
structure AffineBound where
  getMap : AffineMap
  operands : List Nat
  deriving DecidableEq, Repr

/-- The call `bound.getNumOperands()`. -/
def AffineBound.getNumOperands (b : AffineBound) : Nat := b.operands.length

/-- The call `bound.getStmtOperand(idx).get()`; `none` when `idx` is past the end. -/
def AffineBound.getStmtOperand (b : AffineBound) (idx : Nat) : Option Nat := b.operands.get? idx

/-- Modelled from the spec: the loop interface consumed by the analysis
(`ForStmt` of `mlir/IR/Statements.h`, not among the sources). A loop is the
record of what its accessors return. -/
structure ForStmt where
  getStep : Int
  hasConstantBounds : Bool
  getConstantLowerBound : Int
  getConstantUpperBound : Int
  getLowerBound : AffineBound
  getUpperBound : AffineBound
  deriving DecidableEq, Repr

/-- Ways in which the C++ fails to produce a value. -/
inductive Fault where
  | operandIndexOutOfRange
  | resultIndexOutOfRange
  | divisionByZero
  | divisionOverflow
  deriving DecidableEq, Repr

deriving instance DecidableEq for Except

/-! ## `getTripCount` -/

/-- Lines 58-62: the loop `for (i = 0; i < e; i++) if (lb.op(i) != ub.op(i)) break;`.
The first argument is the number of iterations left (`e - i`), the second is `i`;
the value is the `i` the loop ends with. -/
def operandLoop (lb ub : AffineBound) : Nat → Nat → Except Fault Nat
  | 0, i => .ok i
  | n + 1, i =>
    match lb.getStmtOperand i, ub.getStmtOperand i with
    | some a, some b => if a ≠ b then .ok i else operandLoop lb ub n (i + 1)
    | _, _ => .error .operandIndexOutOfRange

/-- Lines 84-91: the trip count of a loop whose span is the constant `loopSpan`.
`return 0;` in a function returning `AffineExpr *` returns the null pointer.
The quotient is computed in `int64_t` (`/` and `%` truncate toward zero), cast
to `uint64_t` and handed to `AffineConstantExpr::get`. The operations
`loopSpan % step` and `loopSpan / step` have no value when `step` is 0 and when
`loopSpan` is `-2^63` and `step` is -1. -/
def tripCountOfSpan (loopSpan step : Int) : Except Fault (Option AffineExpr) :=
  if (loopSpan < 0 ∧ step ≥ 1) ∨ (loopSpan > 0 ∧ step ≤ -1) then
    .ok none
  else if step = 0 then
    .error .divisionByZero
  else if loopSpan = INT64_MIN ∧ step = -1 then
    .error .divisionOverflow
  else
    .ok (some (AffineConstantExpr.get (toUInt64
      (if loopSpan.tmod step = 0 then wrapInt64 (loopSpan.tdiv step)
       else wrapInt64 (wrapInt64 (loopSpan.tdiv step) + 1)))))

/-- Lines 67-75: `ub_expr - lb_expr + 1`, replaced by its simplification when
`simplifyAffineExpr` returns one. -/
def loopSpanExpr (simplifyAffineExpr : AffineExpr → Nat → Nat → Option AffineExpr)
    (lbMap : AffineMap) (ubResult lbResult : AffineExpr) : AffineExpr :=
  let e := AffineBinaryOpExpr.getAdd (AffineBinaryOpExpr.getSub ubResult lbResult) 1
  match simplifyAffineExpr e lbMap.getNumDims lbMap.getNumSymbols with
  | some expr => expr
  | none => e

/-- The function `mlir::getTripCount` (lines 34-92). -/
def getTripCount (simplifyAffineExpr : AffineExpr → Nat → Nat → Option AffineExpr)
    (forStmt : ForStmt) : Except Fault (Option AffineExpr) :=
  let step := forStmt.getStep
  if forStmt.hasConstantBounds then
    let lb := forStmt.getConstantLowerBound
    let ub := forStmt.getConstantUpperBound
    tripCountOfSpan (wrapInt64 (wrapInt64 (ub - lb) + 1)) step
  else
    let lb := forStmt.getLowerBound
    let ub := forStmt.getUpperBound
    let lbMap := lb.getMap
    let ubMap := ub.getMap
    if lbMap.getNumResults ≠ 1 ∨ ubMap.getNumResults ≠ 1 ∨
        lbMap.getNumDims ≠ ubMap.getNumDims ∨
        lbMap.getNumSymbols ≠ ubMap.getNumSymbols then
      .ok none
    else
      let e := lb.getNumOperands
      match operandLoop lb ub e 0 with
      | .error f => .error f
      | .ok i =>
        if i ≠ e then
          .ok none
        else
          match ubMap.getResult 0, lbMap.getResult 0 with
          | some ubResult, some lbResult =>
            match loopSpanExpr simplifyAffineExpr lbMap ubResult lbResult with
            | .Constant loopSpan => tripCountOfSpan loopSpan step
            | spanExpr =>
              .ok (some (AffineBinaryOpExpr.getCeilDiv spanExpr (wrapInt64 (Int.natAbs step))))
          | _, _ => .error .resultIndexOutOfRange

/-! ## Derived queries -/

/-- The function `mlir::getConstantTripCount` (lines 97-104). -/
def getConstantTripCount (simplifyAffineExpr : AffineExpr → Nat → Nat → Option AffineExpr)
    (forStmt : ForStmt) : Except Fault (Option Nat) :=
  match getTripCount simplifyAffineExpr forStmt with
  | .error f => .error f
  | .ok (some (.Constant value)) => .ok (some (toUInt64 value))
  | .ok _ => .ok none

/-- The function `mlir::getLargestDivisorOfTripCount` (lines 109-128). -/
def getLargestDivisorOfTripCount
    (simplifyAffineExpr : AffineExpr → Nat → Nat → Option AffineExpr)
    (getLargestKnownDivisor : AffineExpr → Nat)
    (forStmt : ForStmt) : Except Fault Nat :=
  match getTripCount simplifyAffineExpr forStmt with
  | .error f => .error f
  | .ok none => .ok 1
  | .ok (some (.Constant value)) =>
    let tripCount := toUInt64 value
    if tripCount = 0 then .ok ULONG_MAX else .ok tripCount
  | .ok (some tripCountExpr) => .ok (getLargestKnownDivisor tripCountExpr)

/-! ## Sample loops -/

/-- The map `() -> (value)` with no dimensions and no symbols. -/
def constantMap (value : Int) : AffineMap :=
  { getNumDims := 0, getNumSymbols := 0, results := [.Constant value] }

/-- A loop `for i = lb to ub step s` with constant bounds. -/
def constantLoop (lb ub step : Int) : ForStmt :=
  { getStep := step
    hasConstantBounds := true
    getConstantLowerBound := lb
    getConstantUpperBound := ub
    getLowerBound := { getMap := constantMap lb, operands := [] }
    getUpperBound := { getMap := constantMap ub, operands := [] } }

/-- A loop with non-constant bounds. The constant-bound accessors are not
meaningful for such a loop and are set to zero. -/
def affineLoop (lb ub : AffineBound) (step : Int) : ForStmt :=
  { getStep := step
    hasConstantBounds := false
    getConstantLowerBound := 0
    getConstantUpperBound := 0
    getLowerBound := lb
    getUpperBound := ub }

/-- A simplifier that never simplifies (`simplifyAffineExpr` returning null). -/
def noSimplify : AffineExpr → Nat → Nat → Option AffineExpr := fun _ _ _ => none

/-- A small simplifier for the sample loops: it folds `(x + a) - (x + b) + c` to
the constant `a - b + c` (as a signed 64-bit value) and leaves every other
expression alone. -/
def foldOffsets : AffineExpr → Nat → Nat → Option AffineExpr
  | .BinaryOp .Add
      (.BinaryOp .Sub (.BinaryOp .Add x (.Constant a)) (.BinaryOp .Add y (.Constant b)))
      (.Constant c), _, _ =>
    if x = y then some (.Constant (wrapInt64 (a - b + c))) else none
  | _, _, _ => none

/-- A loop from `(d0) -> (d0 + lbOffset)` to `(d0) -> (d0 + ubOffset)`, both
bounds applied to the same operand. -/
def offsetLoop (lbOffset ubOffset step : Int) : ForStmt :=
  affineLoop
    { getMap := { getNumDims := 1, getNumSymbols := 0,
                  results := [.BinaryOp .Add (.DimRef 0) (.Constant lbOffset)] },
      operands := [7] }
    { getMap := { getNumDims := 1, getNumSymbols := 0,
                  results := [.BinaryOp .Add (.DimRef 0) (.Constant ubOffset)] },
      operands := [7] }
    step

/-- Lines 84-91 read with unbounded integers: the same tests and the same
truncating division, without the reduction to 64 bits and without the casts. -/
def tripCountOfSpanUnbounded (loopSpan step : Int) : Except Fault (Option AffineExpr) :=
  if (loopSpan < 0 ∧ step ≥ 1) ∨ (loopSpan > 0 ∧ step ≤ -1) then
    .ok none
  else if step = 0 then
    .error .divisionByZero
  else
    .ok (some (.Constant
      (if loopSpan.tmod step = 0 then loopSpan.tdiv step else loopSpan.tdiv step + 1)))


end mlir

namespace mlir

/-! ## Arithmetic lemmas -/

theorem wrapInt64_of_isInt64 {x : Int} (h : isInt64 x) : wrapInt64 x = x := by
  unfold isInt64 INT64_MIN INT64_MAX at h
  unfold wrapInt64
  rw [Int.emod_eq_of_lt (by omega) (by omega)]
  omega

theorem wrapInt64_wrapInt64_add (x y : Int) : wrapInt64 (wrapInt64 x + y) = wrapInt64 (x + y) := by
  unfold wrapInt64
  omega

theorem toUInt64_of_nonneg {x : Int} (h0 : 0 ≤ x) (h1 : x ≤ INT64_MAX) :
    ((toUInt64 x : Nat) : Int) = x := by
  unfold INT64_MAX at h1
  unfold toUInt64
  rw [Int.emod_eq_of_lt h0 (by omega)]
  omega

/-- The ceiling of a quotient of integers by truncation and remainder test. -/
theorem ceil_div_eq (a s : Int) (hs : 1 ≤ s) :
    ⌈((a : ℚ) / (s : ℚ))⌉ = if a % s = 0 then a / s else a / s + 1 := by
  have hsq : (0 : ℚ) < (s : ℚ) := by exact_mod_cast (by omega : (0 : Int) < s)
  have hdiv : s * (a / s) + a % s = a := Int.ediv_add_emod a s
  have hr0 : 0 ≤ a % s := Int.emod_nonneg a (by omega)
  have hr1 : a % s < s := Int.emod_lt_of_pos a (by omega)
  have hq : ((s : ℚ) * ((a / s : Int) : ℚ) + ((a % s : Int) : ℚ)) = (a : ℚ) := by
    exact_mod_cast hdiv
  have hr0q : (0 : ℚ) ≤ ((a % s : Int) : ℚ) := by exact_mod_cast hr0
  have hr1q : ((a % s : Int) : ℚ) < (s : ℚ) := by exact_mod_cast hr1
  split_ifs with h
  · rw [Int.ceil_eq_iff]
    have h0 : ((a % s : Int) : ℚ) = 0 := by exact_mod_cast h
    constructor
    · rw [lt_div_iff₀ hsq]; nlinarith
    · rw [div_le_iff₀ hsq]; nlinarith
  · rw [Int.ceil_eq_iff]
    have hpos : (0 : ℚ) < ((a % s : Int) : ℚ) := by
      have : 0 < a % s := by omega
      exact_mod_cast this
    push_cast
    constructor
    · rw [lt_div_iff₀ hsq]; nlinarith
    · rw [div_le_iff₀ hsq]; nlinarith

/-- Lines 84-91 on a non-negative span and a positive step. -/
theorem tripCountOfSpan_nonneg {loopSpan step : Int} (h0 : 0 ≤ loopSpan)
    (h1 : loopSpan ≤ INT64_MAX) (hs : 1 ≤ step) :
    tripCountOfSpan loopSpan step =
      .ok (some (.Constant (if loopSpan % step = 0 then loopSpan / step
        else loopSpan / step + 1))) := by
  have hq0 : 0 ≤ loopSpan / step := Int.ediv_nonneg h0 (by omega)
  have hq1 : loopSpan / step ≤ loopSpan := Int.ediv_le_self _ h0
  have hdiv : step * (loopSpan / step) + loopSpan % step = loopSpan :=
    Int.ediv_add_emod loopSpan step
  have hr0 : 0 ≤ loopSpan % step := Int.emod_nonneg _ (by omega)
  unfold INT64_MAX at h1
  unfold tripCountOfSpan AffineConstantExpr.get
  rw [if_neg (by omega), if_neg (by omega), if_neg (by unfold INT64_MIN; omega),
    Int.tmod_eq_emod h0 (by omega), Int.tdiv_eq_ediv h0 (by omega)]
  have hI : isInt64 (loopSpan / step) := by
    unfold isInt64 INT64_MIN INT64_MAX; constructor <;> omega
  rw [wrapInt64_of_isInt64 hI]
  split_ifs with h
  · rw [toUInt64_of_nonneg hq0 hI.2, wrapInt64_of_isInt64 hI]
  · have hlt : loopSpan / step + 1 ≤ loopSpan := by
      have hs2 : 2 ≤ step := by
        rcases Nat.lt_or_ge 1 step.toNat with h2 | h2
        · omega
        · exfalso; apply h
          have : step = 1 := by omega
          subst this; simp
      have h2q : 2 * (loopSpan / step) ≤ step * (loopSpan / step) :=
        mul_le_mul_of_nonneg_right hs2 hq0
      have hr1 : 1 ≤ loopSpan % step := by omega
      omega
    have hI2 : isInt64 (loopSpan / step + 1) := by
      unfold isInt64 INT64_MIN INT64_MAX; constructor <;> omega
    rw [wrapInt64_of_isInt64 hI2, toUInt64_of_nonneg (by omega) hI2.2,
      wrapInt64_of_isInt64 hI2]

/-- Lines 84-91 do not change when span and step are negated together, as long
as neither division is that of `-2^63` by `-1`. -/
theorem tripCountOfSpan_neg_neg (loopSpan step : Int)
    (hpair : ¬ (loopSpan = INT64_MIN ∧ step = -1))
    (hnegPair : ¬ (-loopSpan = INT64_MIN ∧ -step = -1)) :
    tripCountOfSpan (-loopSpan) (-step) = tripCountOfSpan loopSpan step := by
  unfold tripCountOfSpan
  have hc : ((-loopSpan < 0 ∧ -step ≥ 1) ∨ (-loopSpan > 0 ∧ -step ≤ -1)) ↔
      ((loopSpan < 0 ∧ step ≥ 1) ∨ (loopSpan > 0 ∧ step ≤ -1)) := by omega
  have hz : (-step = 0) ↔ (step = 0) := by omega
  have hd : (-loopSpan).tdiv (-step) = loopSpan.tdiv step := by
    rw [Int.tdiv_neg, Int.neg_tdiv, neg_neg]
  have hm : ((-loopSpan).tmod (-step) = 0) ↔ (loopSpan.tmod step = 0) := by
    rw [Int.tmod_neg, Int.tmod_def, Int.tmod_def, Int.neg_tdiv, Int.mul_neg]
    generalize step * loopSpan.tdiv step = m
    omega
  simp only [hc, hz, hd, hm, if_neg hpair, if_neg hnegPair]

/-- The constant-bounds path of `getTripCount` (lines 41-45) feeds lines 84-91. -/
theorem getTripCount_of_hasConstantBounds
    (simplifyAffineExpr : AffineExpr → Nat → Nat → Option AffineExpr) (forStmt : ForStmt)
    (hconst : forStmt.hasConstantBounds = true) :
    getTripCount simplifyAffineExpr forStmt =
      tripCountOfSpan
        (wrapInt64 (forStmt.getConstantUpperBound - forStmt.getConstantLowerBound + 1))
        forStmt.getStep := by
  unfold getTripCount
  simp only [hconst, if_true, wrapInt64_wrapInt64_add]

/-- With a positive step the body runs for iteration `k` exactly when `k` is
below the rounded-up quotient of the span by the step. -/
theorem iteration_lt_iff (a s : Int) (hs : 1 ≤ s) (k : Nat) :
    (k : Int) * s < a ↔ (k : Int) < (if a % s = 0 then a / s else a / s + 1) := by
  have hdiv : s * (a / s) + a % s = a := Int.ediv_add_emod a s
  have hr0 : 0 ≤ a % s := Int.emod_nonneg a (by omega)
  have hr1 : a % s < s := Int.emod_lt_of_pos a (by omega)
  have hs0 : (0 : Int) ≤ s := by omega
  split_ifs with h
  · constructor
    · intro hk
      by_contra hc
      have : a / s * s ≤ (k : Int) * s := mul_le_mul_of_nonneg_right (by omega) hs0
      nlinarith
    · intro hk
      have : ((k : Int) + 1) * s ≤ a / s * s := mul_le_mul_of_nonneg_right (by omega) hs0
      nlinarith
  · constructor
    · intro hk
      by_contra hc
      have : (a / s + 1) * s ≤ (k : Int) * s := mul_le_mul_of_nonneg_right (by omega) hs0
      nlinarith
    · intro hk
      have : (k : Int) * s ≤ a / s * s := mul_le_mul_of_nonneg_right (by omega) hs0
      have : 0 < a % s := by omega
      nlinarith

/-! ## Trip count of loops with constant bounds -/

/-- C1: for a loop with constant bounds `lb ≤ ub` and step `s ≥ 1` whose span
`ub - lb + 1` fits in an `int64_t`, `getTripCount` returns the constant whose
value is the mathematical ceiling of `(ub - lb + 1) / s`. -/
theorem getTripCount_constant_bounds_ceil
    (simplifyAffineExpr : AffineExpr → Nat → Nat → Option AffineExpr) (forStmt : ForStmt)
    (hconst : forStmt.hasConstantBounds = true)
    (hle : forStmt.getConstantLowerBound ≤ forStmt.getConstantUpperBound)
    (hstep : 1 ≤ forStmt.getStep)
    (hspan : forStmt.getConstantUpperBound - forStmt.getConstantLowerBound + 1 ≤ INT64_MAX) :
    getTripCount simplifyAffineExpr forStmt =
      .ok (some (.Constant
        ⌈(((forStmt.getConstantUpperBound - forStmt.getConstantLowerBound + 1 : Int) : ℚ) /
          ((forStmt.getStep : Int) : ℚ))⌉)) := by
  have hI : isInt64 (forStmt.getConstantUpperBound - forStmt.getConstantLowerBound + 1) := by
    unfold isInt64 INT64_MIN; constructor
    · omega
    · exact hspan
  rw [getTripCount_of_hasConstantBounds _ _ hconst, wrapInt64_of_isInt64 hI,
    tripCountOfSpan_nonneg (by omega) hspan hstep, ceil_div_eq _ _ hstep]

/-- C1, at the loops `for i = 0 to 9 step 1` and `for i = 0 to 9 step 3`: the
trip counts are 10 and 4. -/
theorem getTripCount_constant_bounds_ceil_witness :
    getTripCount noSimplify (constantLoop 0 9 1) = .ok (some (.Constant 10)) ∧
    getTripCount noSimplify (constantLoop 0 9 3) = .ok (some (.Constant 4)) := by
  constructor
  · have h := getTripCount_constant_bounds_ceil noSimplify (constantLoop 0 9 1) rfl
      (by decide) (by decide) (by decide)
    have hc : ⌈((((constantLoop 0 9 1).getConstantUpperBound -
        (constantLoop 0 9 1).getConstantLowerBound + 1 : Int) : ℚ) /
        (((constantLoop 0 9 1).getStep : Int) : ℚ))⌉ = 10 := by
      rw [Int.ceil_eq_iff]; norm_num [constantLoop]
    rw [hc] at h; exact h
  · have h := getTripCount_constant_bounds_ceil noSimplify (constantLoop 0 9 3) rfl
      (by decide) (by decide) (by decide)
    have hc : ⌈((((constantLoop 0 9 3).getConstantUpperBound -
        (constantLoop 0 9 3).getConstantLowerBound + 1 : Int) : ℚ) /
        (((constantLoop 0 9 3).getStep : Int) : ℚ))⌉ = 4 := by
      rw [Int.ceil_eq_iff]; norm_num [constantLoop]
    rw [hc] at h; exact h

/-- C2: at the constant-bounds loops `for i = 5 to 0 step 1` (span -4, step 1)
and `for i = 0 to 9 step -1` (span 10, step -1) the zero-iteration rule fires and
`getTripCount` returns the null pointer, not the constant expression 0. -/
theorem getTripCount_zero_iteration_returns_null :
    getTripCount noSimplify (constantLoop 5 0 1) = .ok none ∧
    getTripCount noSimplify (constantLoop 0 9 (-1)) = .ok none ∧
    getTripCount noSimplify (constantLoop 5 0 1) ≠ .ok (some (.Constant 0)) ∧
    getTripCount noSimplify (constantLoop 0 9 (-1)) ≠ .ok (some (.Constant 0)) := by
  decide

/-- C3, as stated, fails: for `lb = 0`, `ub = 9` the loop with step -2 does not
get the trip count of the loop with step 2 (which is 5). -/
theorem getTripCount_negative_step_counterexample :
    getTripCount noSimplify (constantLoop 0 9 2) = .ok (some (.Constant 5)) ∧
    getTripCount noSimplify (constantLoop 0 9 (-2)) ≠
      getTripCount noSimplify (constantLoop 0 9 2) := by
  decide

/-- C3, amended: for constant bounds `lb ≤ ub` and `s ≥ 1` (span representable),
the loop over the same bounds with step `-s` falls under the zero-iteration rule
and does not get the trip count of step `s`, any constant it yields being 0; the
positive-step formula is mirrored when the span is negated together with the
step: a constant-bounds loop with span `-(ub - lb + 1)` and step `-s` gets the
same trip count as the loop from `lb` to `ub` with step `s`. -/
theorem getTripCount_negative_step_mirror
    (simplifyAffineExpr : AffineExpr → Nat → Nat → Option AffineExpr)
    (forStmt sameBounds mirrored : ForStmt)
    (hconst : forStmt.hasConstantBounds = true)
    (hle : forStmt.getConstantLowerBound ≤ forStmt.getConstantUpperBound)
    (hstep : 1 ≤ forStmt.getStep)
    (hspan : forStmt.getConstantUpperBound - forStmt.getConstantLowerBound + 1 ≤ INT64_MAX)
    (hsameConst : sameBounds.hasConstantBounds = true)
    (hsameLb : sameBounds.getConstantLowerBound = forStmt.getConstantLowerBound)
    (hsameUb : sameBounds.getConstantUpperBound = forStmt.getConstantUpperBound)
    (hsameStep : sameBounds.getStep = -forStmt.getStep)
    (hmirConst : mirrored.hasConstantBounds = true)
    (hmirSpan : mirrored.getConstantUpperBound - mirrored.getConstantLowerBound + 1 =
      -(forStmt.getConstantUpperBound - forStmt.getConstantLowerBound + 1))
    (hmirStep : mirrored.getStep = -forStmt.getStep) :
    getTripCount simplifyAffineExpr sameBounds ≠ getTripCount simplifyAffineExpr forStmt ∧
    (∀ v, getTripCount simplifyAffineExpr sameBounds = .ok (some (.Constant v)) → v = 0) ∧
    getTripCount simplifyAffineExpr mirrored = getTripCount simplifyAffineExpr forStmt := by
  have hI : isInt64 (forStmt.getConstantUpperBound - forStmt.getConstantLowerBound + 1) := by
    unfold isInt64 INT64_MIN; constructor
    · omega
    · exact hspan
  have hsame : getTripCount simplifyAffineExpr sameBounds = .ok none := by
    rw [getTripCount_of_hasConstantBounds _ _ hsameConst, hsameLb, hsameUb, hsameStep,
      wrapInt64_of_isInt64 hI]
    unfold tripCountOfSpan
    rw [if_pos (by omega)]
  have hfor : getTripCount simplifyAffineExpr forStmt = .ok (some (.Constant
      (if (forStmt.getConstantUpperBound - forStmt.getConstantLowerBound + 1) %
          forStmt.getStep = 0 then
        (forStmt.getConstantUpperBound - forStmt.getConstantLowerBound + 1) / forStmt.getStep
      else (forStmt.getConstantUpperBound - forStmt.getConstantLowerBound + 1) /
        forStmt.getStep + 1))) := by
    rw [getTripCount_of_hasConstantBounds _ _ hconst, wrapInt64_of_isInt64 hI,
      tripCountOfSpan_nonneg (by omega) hspan hstep]
  refine ⟨?_, ?_, ?_⟩
  · rw [hsame, hfor]; simp
  · intro v hv; rw [hsame] at hv; simp at hv
  · rw [getTripCount_of_hasConstantBounds _ _ hmirConst,
      getTripCount_of_hasConstantBounds _ _ hconst, hmirSpan, hmirStep, wrapInt64_of_isInt64 hI]
    have hI2 : isInt64
        (-(forStmt.getConstantUpperBound - forStmt.getConstantLowerBound + 1)) := by
      unfold isInt64 INT64_MIN INT64_MAX at *; constructor <;> omega
    have hp1 : ¬ (forStmt.getConstantUpperBound - forStmt.getConstantLowerBound + 1 =
        INT64_MIN ∧ forStmt.getStep = -1) := by omega
    have hp2 : ¬ (-(forStmt.getConstantUpperBound - forStmt.getConstantLowerBound + 1) =
        INT64_MIN ∧ -forStmt.getStep = -1) := by
      unfold INT64_MIN; unfold INT64_MAX at hspan; omega
    rw [wrapInt64_of_isInt64 hI2, tripCountOfSpan_neg_neg _ _ hp1 hp2]

/-- C3, amended, at `lb = 0`, `ub = 9`, `s = 2`: the loop `for i = 0 to 9 step -2`
does not get the count of step 2, and the loop `for i = 10 to -1 step -2`
(span -10) gets the same count as `for i = 0 to 9 step 2`. -/
theorem getTripCount_negative_step_mirror_witness :
    getTripCount noSimplify (constantLoop 0 9 (-2)) ≠
      getTripCount noSimplify (constantLoop 0 9 2) ∧
    (∀ v, getTripCount noSimplify (constantLoop 0 9 (-2)) = .ok (some (.Constant v)) → v = 0) ∧
    getTripCount noSimplify (constantLoop 10 (-1) (-2)) =
      getTripCount noSimplify (constantLoop 0 9 2) :=
  getTripCount_negative_step_mirror noSimplify (constantLoop 0 9 2) (constantLoop 0 9 (-2))
    (constantLoop 10 (-1) (-2)) rfl (by decide) (by decide) (by decide) rfl rfl rfl rfl rfl
    (by decide) rfl

/-- The number of naturals `k` with `lb + k * s ≤ ub`, for `lb ≤ ub` and `s ≥ 1`,
is the rounded-up quotient of `ub - lb + 1` by `s`. -/
theorem ncard_iterations (lb ub s : Int) (hle : lb ≤ ub) (hs : 1 ≤ s) :
    ((Set.ncard {k : Nat | lb + (k : Int) * s ≤ ub} : Nat) : Int) =
      if (ub - lb + 1) % s = 0 then (ub - lb + 1) / s else (ub - lb + 1) / s + 1 := by
  generalize hc : (if (ub - lb + 1) % s = 0 then (ub - lb + 1) / s
    else (ub - lb + 1) / s + 1) = c
  have hiff : ∀ k : Nat, lb + (k : Int) * s ≤ ub ↔ (k : Int) < c := by
    intro k
    rw [← hc, ← iteration_lt_iff _ _ hs k]
    omega
  have hc0 : 0 ≤ c := by
    have := (hiff 0).1 (by simpa using hle)
    omega
  have hset : {k : Nat | lb + (k : Int) * s ≤ ub} =
      ((Finset.range c.toNat : Finset Nat) : Set Nat) := by
    ext k
    simp only [Set.mem_setOf_eq, Finset.coe_range, Set.mem_Iio, hiff k]
    omega
  rw [hset, Set.ncard_coe_Finset, Finset.card_range, Int.toNat_of_nonneg hc0]

/-- C4, as stated, fails when `ub - lb + 1` does not fit in 64 bits: for
`lb = -2^63`, `ub = 2^63 - 1`, `s = 3` the span wraps to 0 and `getTripCount`
returns the constant 0, while the body runs 6148914691236517206 times. -/
theorem getTripCount_iteration_count_counterexample :
    getTripCount noSimplify (constantLoop INT64_MIN INT64_MAX 3) = .ok (some (.Constant 0)) ∧
    ((Set.ncard {k : Nat | INT64_MIN + (k : Int) * 3 ≤ INT64_MAX} : Nat) : Int) =
      6148914691236517206 := by
  refine ⟨by decide, ?_⟩
  rw [ncard_iterations INT64_MIN INT64_MAX 3 (by decide) (by decide)]
  decide

/-- C4, amended: for a loop with constant bounds `lb ≤ ub` and step `s ≥ 1`
whose span `ub - lb + 1` fits in a signed 64-bit integer, the constant returned
by `getTripCount` is the number of times the body executes: the number of
naturals `k` with `lb + k * s ≤ ub`. -/
theorem getTripCount_constant_bounds_counts_iterations
    (simplifyAffineExpr : AffineExpr → Nat → Nat → Option AffineExpr) (forStmt : ForStmt)
    (hconst : forStmt.hasConstantBounds = true)
    (hle : forStmt.getConstantLowerBound ≤ forStmt.getConstantUpperBound)
    (hstep : 1 ≤ forStmt.getStep)
    (hspan : forStmt.getConstantUpperBound - forStmt.getConstantLowerBound + 1 ≤ INT64_MAX) :
    getTripCount simplifyAffineExpr forStmt =
      .ok (some (.Constant ((Set.ncard {k : Nat |
        forStmt.getConstantLowerBound + (k : Int) * forStmt.getStep ≤
          forStmt.getConstantUpperBound} : Nat) : Int))) := by
  have hI : isInt64 (forStmt.getConstantUpperBound - forStmt.getConstantLowerBound + 1) := by
    unfold isInt64 INT64_MIN; constructor
    · omega
    · exact hspan
  rw [getTripCount_of_hasConstantBounds _ _ hconst, wrapInt64_of_isInt64 hI,
    tripCountOfSpan_nonneg (by omega) hspan hstep]
  generalize hc : (if (forStmt.getConstantUpperBound - forStmt.getConstantLowerBound + 1) %
      forStmt.getStep = 0 then
      (forStmt.getConstantUpperBound - forStmt.getConstantLowerBound + 1) / forStmt.getStep
    else (forStmt.getConstantUpperBound - forStmt.getConstantLowerBound + 1) /
      forStmt.getStep + 1) = c
  have hiff : ∀ k : Nat, forStmt.getConstantLowerBound + (k : Int) * forStmt.getStep ≤
      forStmt.getConstantUpperBound ↔ (k : Int) < c := by
    intro k
    rw [← hc, ← iteration_lt_iff _ _ hstep k]
    omega
  have hc0 : 0 ≤ c := by
    have := (hiff 0).1 (by simpa using hle)
    omega
  have hset : {k : Nat | forStmt.getConstantLowerBound + (k : Int) * forStmt.getStep ≤
      forStmt.getConstantUpperBound} = ((Finset.range c.toNat : Finset Nat) : Set Nat) := by
    ext k
    simp only [Set.mem_setOf_eq, Finset.coe_range, Set.mem_Iio, hiff k]
    omega
  rw [hset, Set.ncard_coe_Finset, Finset.card_range, Int.toNat_of_nonneg hc0]

/-- C4, amended, at the loop `for i = 0 to 9 step 3`, whose body runs for
`i = 0, 3, 6, 9`. -/
theorem getTripCount_constant_bounds_counts_iterations_witness :
    getTripCount noSimplify (constantLoop 0 9 3) =
      .ok (some (.Constant ((Set.ncard {k : Nat | (0 : Int) + (k : Int) * 3 ≤ 9} : Nat) : Int))) ∧
    getTripCount noSimplify (constantLoop 0 9 3) = .ok (some (.Constant 4)) :=
  ⟨getTripCount_constant_bounds_counts_iterations noSimplify (constantLoop 0 9 3) rfl
    (by decide) (by decide) (by decide), by decide⟩

/-! ## Loops with non-constant bounds -/

/-- The operand loop stops early, without reading past the end of a list, when
the two lists differ at a position that lies within the scan and within the
upper bound's list. -/
theorem operandLoop_of_differ (lb ub : AffineBound) (n : Nat) :
    ∀ i : Nat, i + n ≤ lb.operands.length →
      (∃ p, i ≤ p ∧ p < i + n ∧ p < ub.operands.length ∧
        lb.operands.get? p ≠ ub.operands.get? p) →
      ∃ j, operandLoop lb ub n i = .ok j ∧ j < i + n := by
  induction n with
  | zero =>
    intro i _ h
    obtain ⟨p, h1, h2, _⟩ := h
    omega
  | succ n ih =>
    intro i hl h
    obtain ⟨p, h1, h2, hpu, h3⟩ := h
    have hil : i < lb.operands.length := by omega
    have hiu : i < ub.operands.length := by omega
    have hgl : lb.getStmtOperand i = some (lb.operands[i]) := by
      unfold AffineBound.getStmtOperand; simp [List.getElem?_eq_getElem hil]
    have hgu : ub.getStmtOperand i = some (ub.operands[i]) := by
      unfold AffineBound.getStmtOperand; simp [List.getElem?_eq_getElem hiu]
    unfold operandLoop
    rw [hgl, hgu]
    by_cases hab : lb.operands[i] = ub.operands[i]
    · simp only [ne_eq, hab, not_true_eq_false, if_false]
      have hpi : p ≠ i := by
        intro hp
        subst hp
        apply h3
        simp [List.getElem?_eq_getElem hil, List.getElem?_eq_getElem hiu, hab]
      obtain ⟨j, hj1, hj2⟩ := ih (i + 1) (by omega) ⟨p, by omega, by omega, hpu, h3⟩
      exact ⟨j, hj1, by omega⟩
    · simp only [ne_eq, hab, not_false_eq_true, if_true]
      exact ⟨i, rfl, by omega⟩

/-- The operand loop runs to its end on identical operand lists. -/
theorem operandLoop_of_same (lb ub : AffineBound) (hsame : lb.operands = ub.operands)
    (n : Nat) : ∀ i : Nat, i + n ≤ lb.operands.length → operandLoop lb ub n i = .ok (i + n) := by
  induction n with
  | zero => intro i _; rfl
  | succ n ih =>
    intro i hl
    have hil : i < lb.operands.length := by omega
    have hiu : i < ub.operands.length := by rw [← hsame]; exact hil
    have hgl : lb.getStmtOperand i = some (lb.operands[i]) := by
      unfold AffineBound.getStmtOperand; simp [List.getElem?_eq_getElem hil]
    have hgu : ub.getStmtOperand i = some (lb.operands[i]) := by
      unfold AffineBound.getStmtOperand; simp [← hsame, List.getElem?_eq_getElem hil]
    unfold operandLoop
    rw [hgl, hgu]
    simp only [ne_eq, not_true_eq_false, if_false]
    rw [ih (i + 1) (by omega)]
    congr 1
    omega

/-- C5: for a loop with non-constant bounds, each bound having one operand per
dimension and symbol of its map, if the lower-bound and upper-bound operand
lists are mismatched (they have different lengths, or they differ in identity at
some position), `getTripCount` returns the null pointer: no read past the end of
a list and no present value. -/
theorem getTripCount_mismatched_operands
    (simplifyAffineExpr : AffineExpr → Nat → Nat → Option AffineExpr) (forStmt : ForStmt)
    (hnonconst : forStmt.hasConstantBounds = false)
    (hwfLb : forStmt.getLowerBound.getNumOperands =
      forStmt.getLowerBound.getMap.getNumDims + forStmt.getLowerBound.getMap.getNumSymbols)
    (hwfUb : forStmt.getUpperBound.getNumOperands =
      forStmt.getUpperBound.getMap.getNumDims + forStmt.getUpperBound.getMap.getNumSymbols)
    (hmismatch :
      forStmt.getLowerBound.getNumOperands ≠ forStmt.getUpperBound.getNumOperands ∨
      ∃ p, p < forStmt.getLowerBound.getNumOperands ∧
        p < forStmt.getUpperBound.getNumOperands ∧
        forStmt.getLowerBound.getStmtOperand p ≠ forStmt.getUpperBound.getStmtOperand p) :
    getTripCount simplifyAffineExpr forStmt = .ok none := by
  unfold getTripCount
  simp only [hnonconst, Bool.false_eq_true, if_false]
  split_ifs with hgate
  · rfl
  · have hd : forStmt.getLowerBound.getMap.getNumDims =
        forStmt.getUpperBound.getMap.getNumDims := by
      by_contra hne; exact hgate (Or.inr (Or.inr (Or.inl hne)))
    have hs : forStmt.getLowerBound.getMap.getNumSymbols =
        forStmt.getUpperBound.getMap.getNumSymbols := by
      by_contra hne; exact hgate (Or.inr (Or.inr (Or.inr hne)))
    rcases hmismatch with hlen | ⟨p, hpl, hpu, hne⟩
    · omega
    · unfold AffineBound.getNumOperands at hpl hpu
      unfold AffineBound.getStmtOperand at hne
      obtain ⟨j, hj1, hj2⟩ := operandLoop_of_differ forStmt.getLowerBound
        forStmt.getUpperBound forStmt.getLowerBound.operands.length 0 (by omega)
        ⟨p, Nat.zero_le p, by omega, hpu, hne⟩
      unfold AffineBound.getNumOperands
      rw [hj1]
      simp only []
      rw [if_pos (by omega)]

/-- C5, at a loop whose bounds have maps of equal shape and the operand lists
`[7, 8]` and `[7, 9]`, which differ at position 1, and at a loop whose upper
bound has a second operand (and a second dimension for it) that the lower bound
lacks. -/
theorem getTripCount_mismatched_operands_witness :
    getTripCount noSimplify (affineLoop
        { getMap := { getNumDims := 2, getNumSymbols := 0, results := [.DimRef 0] },
          operands := [7, 8] }
        { getMap := { getNumDims := 2, getNumSymbols := 0, results := [.DimRef 1] },
          operands := [7, 9] } 1) = .ok none ∧
    getTripCount noSimplify (affineLoop
        { getMap := { getNumDims := 1, getNumSymbols := 0, results := [.DimRef 0] },
          operands := [7] }
        { getMap := { getNumDims := 2, getNumSymbols := 0, results := [.DimRef 1] },
          operands := [7, 8] } 1) = .ok none :=
  ⟨getTripCount_mismatched_operands noSimplify _ rfl (by decide) (by decide)
      (Or.inr ⟨1, by decide, by decide, by decide⟩),
   getTripCount_mismatched_operands noSimplify _ rfl (by decide) (by decide)
      (Or.inl (by decide))⟩

/-- C6: for a loop with non-constant bounds, if either bound map does not have
exactly one result, or the two maps differ in their number of dimensions or of
symbols, `getTripCount` returns the null pointer. -/
theorem getTripCount_incompatible_maps
    (simplifyAffineExpr : AffineExpr → Nat → Nat → Option AffineExpr) (forStmt : ForStmt)
    (hnonconst : forStmt.hasConstantBounds = false)
    (hshape : forStmt.getLowerBound.getMap.getNumResults ≠ 1 ∨
      forStmt.getUpperBound.getMap.getNumResults ≠ 1 ∨
      forStmt.getLowerBound.getMap.getNumDims ≠ forStmt.getUpperBound.getMap.getNumDims ∨
      forStmt.getLowerBound.getMap.getNumSymbols ≠
        forStmt.getUpperBound.getMap.getNumSymbols) :
    getTripCount simplifyAffineExpr forStmt = .ok none := by
  unfold getTripCount
  simp only [hnonconst, Bool.false_eq_true, if_false]
  rw [if_pos hshape]

/-- C6, at a loop whose lower bound is the two-result map
`(d0) -> (d0, d0)` (a maximum of two expressions). -/
theorem getTripCount_incompatible_maps_witness :
    getTripCount noSimplify (affineLoop
        { getMap := { getNumDims := 1, getNumSymbols := 0, results := [.DimRef 0, .DimRef 0] },
          operands := [7] }
        { getMap := { getNumDims := 1, getNumSymbols := 0, results := [.DimRef 0] },
          operands := [7] } 1) = .ok none :=
  getTripCount_incompatible_maps noSimplify _ rfl (by decide)

/-- C7: for a loop with non-constant, structurally compatible bounds (one
result per map, equal numbers of dimensions and of symbols, identical operands)
whose simplified span expression `spanExpr` is not a constant, `getTripCount`
returns `CeilDiv(spanExpr, Constant(|step|))`, whatever the sign of the step
(the step being an `int64_t` whose absolute value is one too). -/
theorem getTripCount_symbolic_span
    (simplifyAffineExpr : AffineExpr → Nat → Nat → Option AffineExpr) (forStmt : ForStmt)
    (lbResult ubResult : AffineExpr)
    (hnonconst : forStmt.hasConstantBounds = false)
    (hlbResult : forStmt.getLowerBound.getMap.results = [lbResult])
    (hubResult : forStmt.getUpperBound.getMap.results = [ubResult])
    (hdims : forStmt.getLowerBound.getMap.getNumDims = forStmt.getUpperBound.getMap.getNumDims)
    (hsyms : forStmt.getLowerBound.getMap.getNumSymbols =
      forStmt.getUpperBound.getMap.getNumSymbols)
    (hoperands : forStmt.getLowerBound.operands = forStmt.getUpperBound.operands)
    (hsymbolic : ∀ v, loopSpanExpr simplifyAffineExpr forStmt.getLowerBound.getMap
      ubResult lbResult ≠ .Constant v)
    (hstep : INT64_MIN < forStmt.getStep ∧ forStmt.getStep ≤ INT64_MAX) :
    getTripCount simplifyAffineExpr forStmt =
      .ok (some (.BinaryOp .CeilDiv
        (loopSpanExpr simplifyAffineExpr forStmt.getLowerBound.getMap ubResult lbResult)
        (.Constant |forStmt.getStep|))) := by
  have habs : wrapInt64 (Int.natAbs forStmt.getStep) = |forStmt.getStep| := by
    rw [Int.natCast_natAbs]
    apply wrapInt64_of_isInt64
    unfold isInt64 INT64_MIN INT64_MAX at *
    rcases abs_cases forStmt.getStep with ⟨h1, _⟩ | ⟨h1, _⟩ <;> rw [h1] <;> constructor <;> omega
  have hloop := operandLoop_of_same forStmt.getLowerBound forStmt.getUpperBound hoperands
    forStmt.getLowerBound.operands.length 0 (by omega)
  unfold getTripCount
  simp only [hnonconst, Bool.false_eq_true, if_false]
  rw [if_neg (by simp [AffineMap.getNumResults, hlbResult, hubResult, hdims, hsyms])]
  simp only [AffineBound.getNumOperands, hloop, Nat.zero_add, ne_eq, not_true_eq_false,
    if_false, AffineMap.getResult, hlbResult, hubResult, List.get?_cons_zero]
  rw [habs]; rfl

/-- C7, at the loops from `(d0)[s0] -> (d0)` to `(d0)[s0] -> (s0)` over the same
two operands, with steps -4 and 4: both get `CeilDiv(s0 - d0 + 1, 4)`. -/
theorem getTripCount_symbolic_span_witness :
    getTripCount noSimplify (affineLoop
        { getMap := { getNumDims := 1, getNumSymbols := 1, results := [.DimRef 0] },
          operands := [7, 8] }
        { getMap := { getNumDims := 1, getNumSymbols := 1, results := [.SymbolRef 0] },
          operands := [7, 8] } (-4)) =
      .ok (some (.BinaryOp .CeilDiv
        (.BinaryOp .Add (.BinaryOp .Sub (.SymbolRef 0) (.DimRef 0)) (.Constant 1))
        (.Constant 4))) ∧
    getTripCount noSimplify (affineLoop
        { getMap := { getNumDims := 1, getNumSymbols := 1, results := [.DimRef 0] },
          operands := [7, 8] }
        { getMap := { getNumDims := 1, getNumSymbols := 1, results := [.SymbolRef 0] },
          operands := [7, 8] } 4) =
      .ok (some (.BinaryOp .CeilDiv
        (.BinaryOp .Add (.BinaryOp .Sub (.SymbolRef 0) (.DimRef 0)) (.Constant 1))
        (.Constant 4))) :=
  ⟨getTripCount_symbolic_span noSimplify _ (.DimRef 0) (.SymbolRef 0) rfl rfl rfl rfl rfl rfl
    (by intro v; simp [loopSpanExpr, noSimplify, AffineBinaryOpExpr.getAdd]) (by decide),
   getTripCount_symbolic_span noSimplify _ (.DimRef 0) (.SymbolRef 0) rfl rfl rfl rfl rfl rfl
    (by intro v; simp [loopSpanExpr, noSimplify, AffineBinaryOpExpr.getAdd]) (by decide)⟩

/-! ## Derived queries -/

theorem isInt64_wrapInt64 (x : Int) : isInt64 (wrapInt64 x) := by
  unfold isInt64 INT64_MIN INT64_MAX wrapInt64
  omega

/-- A constant produced by lines 84-91 is an `int64_t`. -/
theorem isInt64_of_tripCountOfSpan {loopSpan step v : Int}
    (h : tripCountOfSpan loopSpan step = .ok (some (.Constant v))) : isInt64 v := by
  unfold tripCountOfSpan AffineConstantExpr.get at h
  split_ifs at h <;>
    first
      | (simp only [Except.ok.injEq, Option.some.injEq, AffineExpr.Constant.injEq] at h
         rw [← h]
         exact isInt64_wrapInt64 _)
      | simp at h

/-- A constant returned by `getTripCount` is an `int64_t`. -/
theorem isInt64_of_getTripCount
    (simplifyAffineExpr : AffineExpr → Nat → Nat → Option AffineExpr) (forStmt : ForStmt)
    (v : Int) (h : getTripCount simplifyAffineExpr forStmt = .ok (some (.Constant v))) :
    isInt64 v := by
  unfold getTripCount at h
  simp only at h
  split_ifs at h with hc hgate
  · exact isInt64_of_tripCountOfSpan h
  · simp at h
  · split at h
    · simp at h
    · split_ifs at h
      · simp at h
      · split at h
        · split at h
          · exact isInt64_of_tripCountOfSpan h
          · simp [AffineBinaryOpExpr.getCeilDiv] at h
        · simp at h

/-- C8: `getConstantTripCount` is present if and only if `getTripCount` is
present and is a constant expression `Constant(v)`; in that case the value
returned is `v` converted to `uint64_t`, which is `v` itself when `v ≥ 0`. -/
theorem getConstantTripCount_present_iff
    (simplifyAffineExpr : AffineExpr → Nat → Nat → Option AffineExpr) (forStmt : ForStmt) :
    ((∃ n, getConstantTripCount simplifyAffineExpr forStmt = .ok (some n)) ↔
      ∃ v, getTripCount simplifyAffineExpr forStmt = .ok (some (.Constant v))) ∧
    ∀ v, getTripCount simplifyAffineExpr forStmt = .ok (some (.Constant v)) →
      getConstantTripCount simplifyAffineExpr forStmt = .ok (some (toUInt64 v)) ∧
      (0 ≤ v → getConstantTripCount simplifyAffineExpr forStmt = .ok (some v.toNat)) := by
  have hval : ∀ v, getTripCount simplifyAffineExpr forStmt = .ok (some (.Constant v)) →
      getConstantTripCount simplifyAffineExpr forStmt = .ok (some (toUInt64 v)) := by
    intro v hv
    unfold getConstantTripCount
    rw [hv]
  refine ⟨⟨?_, ?_⟩, ?_⟩
  · rintro ⟨n, hn⟩
    unfold getConstantTripCount at hn
    split at hn
    · simp at hn
    · rename_i value hvalue
      exact ⟨value, hvalue⟩
    · simp at hn
  · rintro ⟨v, hv⟩
    exact ⟨toUInt64 v, hval v hv⟩
  · intro v hv
    refine ⟨hval v hv, fun h0 => ?_⟩
    rw [hval v hv]
    have hI := isInt64_of_getTripCount simplifyAffineExpr forStmt v hv
    have := toUInt64_of_nonneg h0 hI.2
    congr 2
    omega

/-- C8, at the loop `for i = 0 to 9 step 3`: the trip count is the constant 4 and
the constant trip count is 4. -/
theorem getConstantTripCount_present_iff_witness :
    getTripCount noSimplify (constantLoop 0 9 3) = .ok (some (.Constant 4)) ∧
    getConstantTripCount noSimplify (constantLoop 0 9 3) = .ok (some 4) :=
  ⟨by decide,
   ((getConstantTripCount_present_iff noSimplify (constantLoop 0 9 3)).2 4 (by decide)).2
    (by decide)⟩

/-- C9: if `getConstantTripCount` returns `v` with `v > 0`, then
`getLargestDivisorOfTripCount` returns `v`. -/
theorem getLargestDivisorOfTripCount_of_positive_constant
    (simplifyAffineExpr : AffineExpr → Nat → Nat → Option AffineExpr)
    (getLargestKnownDivisor : AffineExpr → Nat) (forStmt : ForStmt) (v : Nat)
    (hconst : getConstantTripCount simplifyAffineExpr forStmt = .ok (some v))
    (hpos : 0 < v) :
    getLargestDivisorOfTripCount simplifyAffineExpr getLargestKnownDivisor forStmt = .ok v := by
  unfold getConstantTripCount at hconst
  unfold getLargestDivisorOfTripCount
  split at hconst
  · simp at hconst
  · rename_i value hvalue
    simp only [Except.ok.injEq, Option.some.injEq] at hconst
    rw [hvalue]
    simp only [hconst]
    rw [if_neg (by omega)]
  · simp at hconst

/-- C9, at the loop `for i = 0 to 9 step 3`: constant trip count 4, largest
divisor 4. -/
theorem getLargestDivisorOfTripCount_of_positive_constant_witness :
    getConstantTripCount noSimplify (constantLoop 0 9 3) = .ok (some 4) ∧
    getLargestDivisorOfTripCount noSimplify (fun _ => 1) (constantLoop 0 9 3) = .ok 4 :=
  ⟨by decide,
   getLargestDivisorOfTripCount_of_positive_constant noSimplify (fun _ => 1)
    (constantLoop 0 9 3) 4 (by decide) (by decide)⟩

/-- C10: if `getConstantTripCount` returns 0, then `getLargestDivisorOfTripCount`
returns the largest unsigned 64-bit value, `2^64 - 1`. -/
theorem getLargestDivisorOfTripCount_of_zero_constant
    (simplifyAffineExpr : AffineExpr → Nat → Nat → Option AffineExpr)
    (getLargestKnownDivisor : AffineExpr → Nat) (forStmt : ForStmt)
    (hconst : getConstantTripCount simplifyAffineExpr forStmt = .ok (some 0)) :
    getLargestDivisorOfTripCount simplifyAffineExpr getLargestKnownDivisor forStmt =
        .ok ULONG_MAX ∧
      ULONG_MAX = 2 ^ 64 - 1 := by
  refine ⟨?_, by decide⟩
  unfold getConstantTripCount at hconst
  unfold getLargestDivisorOfTripCount
  split at hconst
  · simp at hconst
  · rename_i value hvalue
    simp only [Except.ok.injEq, Option.some.injEq] at hconst
    rw [hvalue]
    simp only [hconst]
    rfl
  · simp at hconst

/-- C10, at the empty loop `for i = 5 to 4 step 1`: constant trip count 0,
largest divisor `2^64 - 1`. -/
theorem getLargestDivisorOfTripCount_of_zero_constant_witness :
    getConstantTripCount noSimplify (constantLoop 5 4 1) = .ok (some 0) ∧
    getLargestDivisorOfTripCount noSimplify (fun _ => 1) (constantLoop 5 4 1) =
      .ok 18446744073709551615 :=
  ⟨by decide,
   (getLargestDivisorOfTripCount_of_zero_constant noSimplify (fun _ => 1)
    (constantLoop 5 4 1) (by decide)).1⟩

/-! ## Absent and symbolic trip counts -/

/-- C11: if `getTripCount` returns the null pointer, `getLargestDivisorOfTripCount`
returns 1 and `getConstantTripCount` returns `None`. -/
theorem getLargestDivisorOfTripCount_of_absent
    (simplifyAffineExpr : AffineExpr → Nat → Nat → Option AffineExpr)
    (getLargestKnownDivisor : AffineExpr → Nat) (forStmt : ForStmt)
    (habsent : getTripCount simplifyAffineExpr forStmt = .ok none) :
    getLargestDivisorOfTripCount simplifyAffineExpr getLargestKnownDivisor forStmt = .ok 1 ∧
    getConstantTripCount simplifyAffineExpr forStmt = .ok none := by
  unfold getLargestDivisorOfTripCount getConstantTripCount
  rw [habsent]
  exact ⟨rfl, rfl⟩

/-- C11, at a loop whose lower bound is a two-result map: the trip count is
absent, the largest divisor is 1 (whatever the divisor query would say) and the
constant trip count is unknown. -/
theorem getLargestDivisorOfTripCount_of_absent_witness :
    getLargestDivisorOfTripCount noSimplify (fun _ => 5) (affineLoop
        { getMap := { getNumDims := 1, getNumSymbols := 0, results := [.DimRef 0, .DimRef 0] },
          operands := [7] }
        { getMap := { getNumDims := 1, getNumSymbols := 0, results := [.DimRef 0] },
          operands := [7] } 1) = .ok 1 ∧
    getConstantTripCount noSimplify (affineLoop
        { getMap := { getNumDims := 1, getNumSymbols := 0, results := [.DimRef 0, .DimRef 0] },
          operands := [7] }
        { getMap := { getNumDims := 1, getNumSymbols := 0, results := [.DimRef 0] },
          operands := [7] } 1) = .ok none :=
  getLargestDivisorOfTripCount_of_absent noSimplify (fun _ => 5) _ (by decide)

/-- C12: if `getTripCount` returns an expression that is not a constant,
`getLargestDivisorOfTripCount` returns `getLargestKnownDivisor` of that
expression. -/
theorem getLargestDivisorOfTripCount_of_symbolic
    (simplifyAffineExpr : AffineExpr → Nat → Nat → Option AffineExpr)
    (getLargestKnownDivisor : AffineExpr → Nat) (forStmt : ForStmt)
    (tripCountExpr : AffineExpr)
    (hpresent : getTripCount simplifyAffineExpr forStmt = .ok (some tripCountExpr))
    (hsymbolic : ∀ v, tripCountExpr ≠ .Constant v) :
    getLargestDivisorOfTripCount simplifyAffineExpr getLargestKnownDivisor forStmt =
      .ok (getLargestKnownDivisor tripCountExpr) := by
  unfold getLargestDivisorOfTripCount
  rw [hpresent]
  cases tripCountExpr with
  | Constant v => exact absurd rfl (hsymbolic v)
  | DimRef i => rfl
  | SymbolRef i => rfl
  | BinaryOp k l r => rfl

/-- C12, at the loop from `(d0)[s0] -> (d0)` to `(d0)[s0] -> (s0)` with step 4
and a divisor query that answers 3 on `CeilDiv` nodes and 1 elsewhere. -/
theorem getLargestDivisorOfTripCount_of_symbolic_witness :
    getLargestDivisorOfTripCount noSimplify
      (fun e => match e with
        | .BinaryOp .CeilDiv _ _ => 3
        | _ => 1)
      (affineLoop
        { getMap := { getNumDims := 1, getNumSymbols := 1, results := [.DimRef 0] },
          operands := [7, 8] }
        { getMap := { getNumDims := 1, getNumSymbols := 1, results := [.SymbolRef 0] },
          operands := [7, 8] } 4) = .ok 3 :=
  getLargestDivisorOfTripCount_of_symbolic noSimplify _ _
    (.BinaryOp .CeilDiv
      (.BinaryOp .Add (.BinaryOp .Sub (.SymbolRef 0) (.DimRef 0)) (.Constant 1)) (.Constant 4))
    (by decide) (by intro v; simp)

/-! ## Zero-iteration loops and empty ranges -/

/-- C14: at the constant-bounds loops `for i = 5 to 0 step 1` (span -4, step 1)
and `for i = 0 to 9 step -1` (span 10, step -1), which never execute,
`getLargestDivisorOfTripCount` returns 1, not `2^64 - 1`, and
`getConstantTripCount` returns `None`, not 0. -/
theorem zero_iteration_queries_see_null :
    getLargestDivisorOfTripCount noSimplify (fun _ => 1) (constantLoop 5 0 1) = .ok 1 ∧
    getConstantTripCount noSimplify (constantLoop 5 0 1) = .ok none ∧
    getLargestDivisorOfTripCount noSimplify (fun _ => 1) (constantLoop 0 9 (-1)) = .ok 1 ∧
    getConstantTripCount noSimplify (constantLoop 0 9 (-1)) = .ok none := by
  decide

/-- C15: for a loop with constant bounds whose span is exactly zero
(`ub = lb - 1`) and any nonzero step, the zero-iteration test of line 85 is
false and `getTripCount` returns the constant 0 from the division of lines
88-91. -/
theorem getTripCount_empty_range
    (simplifyAffineExpr : AffineExpr → Nat → Nat → Option AffineExpr) (forStmt : ForStmt)
    (hconst : forStmt.hasConstantBounds = true)
    (hempty : forStmt.getConstantUpperBound = forStmt.getConstantLowerBound - 1)
    (hstep : forStmt.getStep ≠ 0) :
    ¬ ((forStmt.getConstantUpperBound - forStmt.getConstantLowerBound + 1 < 0 ∧
          forStmt.getStep ≥ 1) ∨
        (forStmt.getConstantUpperBound - forStmt.getConstantLowerBound + 1 > 0 ∧
          forStmt.getStep ≤ -1)) ∧
    getTripCount simplifyAffineExpr forStmt = .ok (some (.Constant 0)) := by
  have hspan : forStmt.getConstantUpperBound - forStmt.getConstantLowerBound + 1 = 0 := by
    omega
  refine ⟨by omega, ?_⟩
  rw [getTripCount_of_hasConstantBounds _ _ hconst, hspan]
  have hw : wrapInt64 0 = 0 := by decide
  unfold tripCountOfSpan AffineConstantExpr.get
  rw [hw, if_neg (by omega), if_neg hstep, if_neg (by unfold INT64_MIN; omega)]
  simp only [Int.zero_tmod, Int.zero_tdiv, if_true, hw]
  rfl

/-- C15, at the loops `for i = 5 to 4 step 1` and `for i = 5 to 4 step -3`. -/
theorem getTripCount_empty_range_witness :
    getTripCount noSimplify (constantLoop 5 4 1) = .ok (some (.Constant 0)) ∧
    getTripCount noSimplify (constantLoop 5 4 (-3)) = .ok (some (.Constant 0)) :=
  ⟨(getTripCount_empty_range noSimplify (constantLoop 5 4 1) rfl (by decide) (by decide)).2,
   (getTripCount_empty_range noSimplify (constantLoop 5 4 (-3)) rfl (by decide) (by decide)).2⟩


/-! ## Division of a constant span -/

/-- Lines 84-91 on a non-negative span and a positive step, when the rounded-up
quotient is an `int64_t`. -/
theorem tripCountOfSpan_of_count_le {loopSpan step : Int} (h0 : 0 ≤ loopSpan) (hs : 1 ≤ step)
    (hc : (if loopSpan % step = 0 then loopSpan / step else loopSpan / step + 1) ≤ INT64_MAX) :
    tripCountOfSpan loopSpan step =
      .ok (some (.Constant (if loopSpan % step = 0 then loopSpan / step
        else loopSpan / step + 1))) := by
  have hq0 : 0 ≤ loopSpan / step := Int.ediv_nonneg h0 (by omega)
  unfold tripCountOfSpan AffineConstantExpr.get
  rw [if_neg (by omega), if_neg (by omega), if_neg (by unfold INT64_MIN; omega),
    Int.tmod_eq_emod h0 (by omega), Int.tdiv_eq_ediv h0 (by omega)]
  split_ifs with h
  · rw [if_pos h] at hc
    have hI : isInt64 (loopSpan / step) := by
      unfold isInt64 INT64_MIN; constructor
      · omega
      · exact hc
    rw [wrapInt64_of_isInt64 hI, toUInt64_of_nonneg hq0 hc, wrapInt64_of_isInt64 hI]
  · rw [if_neg h] at hc
    have hI : isInt64 (loopSpan / step) := by
      unfold isInt64 INT64_MIN INT64_MAX at *; constructor <;> omega
    have hI2 : isInt64 (loopSpan / step + 1) := by
      unfold isInt64 INT64_MIN; constructor
      · omega
      · exact hc
    rw [wrapInt64_of_isInt64 hI, wrapInt64_of_isInt64 hI2,
      toUInt64_of_nonneg (by omega) hc, wrapInt64_of_isInt64 hI2]

/-- The rounded-up quotient of a span of at most `2^63` is an `int64_t`, except
for the span `2^63` with step 1. -/
theorem count_le_INT64_MAX {a s : Int} (h0 : 0 ≤ a) (h1 : a ≤ 9223372036854775808)
    (hs : 1 ≤ s) (hpair : ¬ (a = 9223372036854775808 ∧ s = 1)) :
    (if a % s = 0 then a / s else a / s + 1) ≤ INT64_MAX := by
  have hq0 : 0 ≤ a / s := Int.ediv_nonneg h0 (by omega)
  have hdiv : s * (a / s) + a % s = a := Int.ediv_add_emod a s
  have hr0 : 0 ≤ a % s := Int.emod_nonneg _ (by omega)
  unfold INT64_MAX
  rcases Int.lt_or_le 1 s with hs2 | hs1
  · have h2q : 2 * (a / s) ≤ s * (a / s) := mul_le_mul_of_nonneg_right (by omega) hq0
    split_ifs <;> omega
  · have hs' : s = 1 := by omega
    subst hs'
    simp only [Int.emod_one, if_true, Int.ediv_one]
    omega

/-- The unbounded reading of lines 84-91 on a non-negative span and a positive
step. -/
theorem tripCountOfSpanUnbounded_nonneg {loopSpan step : Int} (h0 : 0 ≤ loopSpan)
    (hs : 1 ≤ step) :
    tripCountOfSpanUnbounded loopSpan step =
      .ok (some (.Constant (if loopSpan % step = 0 then loopSpan / step
        else loopSpan / step + 1))) := by
  unfold tripCountOfSpanUnbounded
  rw [if_neg (by omega), if_neg (by omega),
    Int.tmod_eq_emod h0 (by omega), Int.tdiv_eq_ediv h0 (by omega)]

/-- The unbounded reading does not change when span and step are negated
together. -/
theorem tripCountOfSpanUnbounded_neg_neg (loopSpan step : Int) :
    tripCountOfSpanUnbounded (-loopSpan) (-step) = tripCountOfSpanUnbounded loopSpan step := by
  unfold tripCountOfSpanUnbounded
  have hc : ((-loopSpan < 0 ∧ -step ≥ 1) ∨ (-loopSpan > 0 ∧ -step ≤ -1)) ↔
      ((loopSpan < 0 ∧ step ≥ 1) ∨ (loopSpan > 0 ∧ step ≤ -1)) := by omega
  have hz : (-step = 0) ↔ (step = 0) := by omega
  have hd : (-loopSpan).tdiv (-step) = loopSpan.tdiv step := by
    rw [Int.tdiv_neg, Int.neg_tdiv, neg_neg]
  have hm : ((-loopSpan).tmod (-step) = 0) ↔ (loopSpan.tmod step = 0) := by
    rw [Int.tmod_neg, Int.tmod_def, Int.tmod_def, Int.neg_tdiv, Int.mul_neg]
    generalize step * loopSpan.tdiv step = m
    omega
  simp only [hc, hz, hd, hm]

/-- On an `int64_t` span, away from the pair `(-2^63, -1)`, lines 84-91 compute
what their unbounded reading computes. -/
theorem tripCountOfSpan_eq_unbounded {loopSpan step : Int} (hI : isInt64 loopSpan)
    (hpair : ¬ (loopSpan = INT64_MIN ∧ step = -1)) :
    tripCountOfSpan loopSpan step = tripCountOfSpanUnbounded loopSpan step := by
  have hpair0 := hpair
  unfold isInt64 INT64_MIN INT64_MAX at hI
  unfold INT64_MIN at hpair
  by_cases hmis : (loopSpan < 0 ∧ step ≥ 1) ∨ (loopSpan > 0 ∧ step ≤ -1)
  · unfold tripCountOfSpan tripCountOfSpanUnbounded
    rw [if_pos hmis, if_pos hmis]
  · by_cases hz : step = 0
    · unfold tripCountOfSpan tripCountOfSpanUnbounded
      rw [if_neg hmis, if_neg hmis, if_pos hz, if_pos hz]
    · rcases Int.lt_or_le 0 step with hpos | hneg
      · rw [tripCountOfSpan_of_count_le (by omega) (by omega)
            (count_le_INT64_MAX (by omega) (by omega) (by omega) (by omega)),
          tripCountOfSpanUnbounded_nonneg (by omega) (by omega)]
      · have hpair1 : ¬ (-loopSpan = INT64_MIN ∧ -step = -1) := by omega
        rw [← tripCountOfSpan_neg_neg loopSpan step hpair0 hpair1,
          ← tripCountOfSpanUnbounded_neg_neg,
          tripCountOfSpan_of_count_le (by omega) (by omega)
            (count_le_INT64_MAX (by omega) (by omega) (by omega) (by omega)),
          tripCountOfSpanUnbounded_nonneg (by omega) (by omega)]


/-- C16: for a loop with constant bounds whose span `ub - lb + 1` is an
`int64_t` that is at most 0, and a step `s ≤ -1`, the pair `(-2^63, -1)` apart,
`getTripCount` returns the constant whose value is the mathematical ceiling of
`span / s`, which is the ceiling of `|span| / |s|`. -/
theorem getTripCount_negative_span_negative_step
    (simplifyAffineExpr : AffineExpr → Nat → Nat → Option AffineExpr) (forStmt : ForStmt)
    (hconst : forStmt.hasConstantBounds = true)
    (hspan0 : forStmt.getConstantUpperBound - forStmt.getConstantLowerBound + 1 ≤ 0)
    (hspanMin : INT64_MIN ≤ forStmt.getConstantUpperBound - forStmt.getConstantLowerBound + 1)
    (hstep : forStmt.getStep ≤ -1)
    (hpair : ¬ (forStmt.getConstantUpperBound - forStmt.getConstantLowerBound + 1 = INT64_MIN ∧
      forStmt.getStep = -1)) :
    getTripCount simplifyAffineExpr forStmt =
      .ok (some (.Constant
        ⌈(((forStmt.getConstantUpperBound - forStmt.getConstantLowerBound + 1 : Int) : ℚ) /
          ((forStmt.getStep : Int) : ℚ))⌉)) ∧
    ⌈(((forStmt.getConstantUpperBound - forStmt.getConstantLowerBound + 1 : Int) : ℚ) /
        ((forStmt.getStep : Int) : ℚ))⌉ =
      ⌈(((|forStmt.getConstantUpperBound - forStmt.getConstantLowerBound + 1| : Int) : ℚ) /
        ((|forStmt.getStep| : Int) : ℚ))⌉ := by
  generalize hspanEq :
    forStmt.getConstantUpperBound - forStmt.getConstantLowerBound + 1 = span at *
  generalize hstepEq : forStmt.getStep = step at *
  have hI : isInt64 span := by
    unfold isInt64 INT64_MAX; exact ⟨hspanMin, by omega⟩
  have hq : ((span : Int) : ℚ) / ((step : Int) : ℚ) =
      (((-span : Int) : Int) : ℚ) / (((-step : Int) : Int) : ℚ) := by
    push_cast
    rw [neg_div_neg_eq]
  have habs : ((|span| : Int) : ℚ) / ((|step| : Int) : ℚ) =
      (((-span : Int) : Int) : ℚ) / (((-step : Int) : Int) : ℚ) := by
    rw [abs_of_nonpos hspan0, abs_of_nonpos (by omega : step ≤ 0)]
  have hcount : (if -span % -step = 0 then -span / -step else -span / -step + 1) ≤ INT64_MAX := by
    unfold INT64_MIN at hspanMin hpair
    exact count_le_INT64_MAX (by omega) (by omega) (by omega) (by omega)
  have hnegPair : ¬ (-span = INT64_MIN ∧ -step = -1) := by omega
  refine ⟨?_, by rw [hq, habs]⟩
  rw [getTripCount_of_hasConstantBounds _ _ hconst, hspanEq, wrapInt64_of_isInt64 hI, hstepEq,
    ← tripCountOfSpan_neg_neg span step hpair hnegPair, tripCountOfSpan_of_count_le (by omega) (by omega) hcount,
    hq, ceil_div_eq _ _ (by omega)]

/-- C16, at the loop `for i = 10 to 0 step -3` (span -9, so ceiling of `-9 / -3`
is 3) and at the loop `for i = 10 to -1 step -3` (span -10, ceiling 4). -/
theorem getTripCount_negative_span_negative_step_witness :
    getTripCount noSimplify (constantLoop 10 0 (-3)) = .ok (some (.Constant 3)) ∧
    getTripCount noSimplify (constantLoop 10 (-1) (-3)) = .ok (some (.Constant 4)) := by
  constructor
  · have h := (getTripCount_negative_span_negative_step noSimplify (constantLoop 10 0 (-3)) rfl
      (by decide) (by decide) (by decide) (by decide)).1
    have hc : ⌈((((constantLoop 10 0 (-3)).getConstantUpperBound -
        (constantLoop 10 0 (-3)).getConstantLowerBound + 1 : Int) : ℚ) /
        (((constantLoop 10 0 (-3)).getStep : Int) : ℚ))⌉ = 3 := by
      rw [Int.ceil_eq_iff]; norm_num [constantLoop]
    rw [hc] at h; exact h
  · have h := (getTripCount_negative_span_negative_step noSimplify (constantLoop 10 (-1) (-3))
      rfl (by decide) (by decide) (by decide) (by decide)).1
    have hc : ⌈((((constantLoop 10 (-1) (-3)).getConstantUpperBound -
        (constantLoop 10 (-1) (-3)).getConstantLowerBound + 1 : Int) : ℚ) /
        (((constantLoop 10 (-1) (-3)).getStep : Int) : ℚ))⌉ = 4 := by
      rw [Int.ceil_eq_iff]; norm_num [constantLoop]
    rw [hc] at h; exact h

/-- The non-constant path of `getTripCount` (lines 46-81), on compatible bounds
whose simplified span is the constant `c`, feeds `c` to lines 84-91. -/
theorem getTripCount_of_constant_span
    (simplifyAffineExpr : AffineExpr → Nat → Nat → Option AffineExpr) (forStmt : ForStmt)
    (lbResult ubResult : AffineExpr) (c : Int)
    (hnonconst : forStmt.hasConstantBounds = false)
    (hlbResult : forStmt.getLowerBound.getMap.results = [lbResult])
    (hubResult : forStmt.getUpperBound.getMap.results = [ubResult])
    (hdims : forStmt.getLowerBound.getMap.getNumDims = forStmt.getUpperBound.getMap.getNumDims)
    (hsyms : forStmt.getLowerBound.getMap.getNumSymbols =
      forStmt.getUpperBound.getMap.getNumSymbols)
    (hoperands : forStmt.getLowerBound.operands = forStmt.getUpperBound.operands)
    (hspanExpr : loopSpanExpr simplifyAffineExpr forStmt.getLowerBound.getMap
      ubResult lbResult = .Constant c) :
    getTripCount simplifyAffineExpr forStmt = tripCountOfSpan c forStmt.getStep := by
  have hloop := operandLoop_of_same forStmt.getLowerBound forStmt.getUpperBound hoperands
    forStmt.getLowerBound.operands.length 0 (by omega)
  unfold getTripCount
  simp only [hnonconst, Bool.false_eq_true, if_false]
  rw [if_neg (by simp [AffineMap.getNumResults, hlbResult, hubResult, hdims, hsyms])]
  simp only [AffineBound.getNumOperands, hloop, Nat.zero_add, ne_eq, not_true_eq_false,
    if_false, AffineMap.getResult, hlbResult, hubResult, List.get?_cons_zero, hspanExpr]

/-- C17: a loop with non-constant, structurally compatible bounds whose
simplified span expression is `Constant(c)` gets from `getTripCount` exactly the
result of a constant-bounds loop with the same step and `ub - lb + 1 = c`: both
apply lines 84-91 to `c`. -/
theorem getTripCount_constant_span_agrees
    (simplifyAffineExpr : AffineExpr → Nat → Nat → Option AffineExpr)
    (forStmt constantBounds : ForStmt) (lbResult ubResult : AffineExpr) (c : Int)
    (hnonconst : forStmt.hasConstantBounds = false)
    (hlbResult : forStmt.getLowerBound.getMap.results = [lbResult])
    (hubResult : forStmt.getUpperBound.getMap.results = [ubResult])
    (hdims : forStmt.getLowerBound.getMap.getNumDims = forStmt.getUpperBound.getMap.getNumDims)
    (hsyms : forStmt.getLowerBound.getMap.getNumSymbols =
      forStmt.getUpperBound.getMap.getNumSymbols)
    (hoperands : forStmt.getLowerBound.operands = forStmt.getUpperBound.operands)
    (hspanExpr : loopSpanExpr simplifyAffineExpr forStmt.getLowerBound.getMap
      ubResult lbResult = .Constant c)
    (hc : isInt64 c)
    (hconst : constantBounds.hasConstantBounds = true)
    (hstep : constantBounds.getStep = forStmt.getStep)
    (hspan : constantBounds.getConstantUpperBound - constantBounds.getConstantLowerBound + 1 = c) :
    getTripCount simplifyAffineExpr forStmt = getTripCount simplifyAffineExpr constantBounds ∧
    getTripCount simplifyAffineExpr forStmt = tripCountOfSpan c forStmt.getStep := by
  have h1 := getTripCount_of_constant_span simplifyAffineExpr forStmt lbResult ubResult c
    hnonconst hlbResult hubResult hdims hsyms hoperands hspanExpr
  refine ⟨?_, h1⟩
  rw [h1, getTripCount_of_hasConstantBounds _ _ hconst, hspan, hstep, wrapInt64_of_isInt64 hc]

/-- C17, at the loop from `(d0) -> (d0 + 0)` to `(d0) -> (d0 + 9)` with step 3,
whose span folds to the constant 10, against `for i = 0 to 9 step 3`; and at the
loop from `(d0) -> (d0 + 5)` to `(d0) -> (d0 + 0)` with step 1, whose span folds
to -4, against `for i = 5 to 0 step 1`. -/
theorem getTripCount_constant_span_agrees_witness :
    (getTripCount foldOffsets (offsetLoop 0 9 3) = getTripCount foldOffsets (constantLoop 0 9 3) ∧
      getTripCount foldOffsets (offsetLoop 0 9 3) = tripCountOfSpan 10 3) ∧
    (getTripCount foldOffsets (offsetLoop 5 0 1) = getTripCount foldOffsets (constantLoop 5 0 1) ∧
      getTripCount foldOffsets (offsetLoop 5 0 1) = tripCountOfSpan (-4) 1) :=
  ⟨getTripCount_constant_span_agrees foldOffsets (offsetLoop 0 9 3) (constantLoop 0 9 3)
      (.BinaryOp .Add (.DimRef 0) (.Constant 0)) (.BinaryOp .Add (.DimRef 0) (.Constant 9)) 10
      rfl rfl rfl rfl rfl rfl (by decide) (by decide) rfl rfl (by decide),
   getTripCount_constant_span_agrees foldOffsets (offsetLoop 5 0 1) (constantLoop 5 0 1)
      (.BinaryOp .Add (.DimRef 0) (.Constant 5)) (.BinaryOp .Add (.DimRef 0) (.Constant 0)) (-4)
      rfl rfl rfl rfl rfl rfl (by decide) (by decide) rfl rfl (by decide)⟩


/-! ## Wraparound -/

/-- C18: for a loop with constant bounds and a nonzero step, when the exact
value of `ub - lb + 1` is an `int64_t` and (span, step) is not `(-2^63, -1)`,
the trip count computed with 64-bit wraparound (casts included) is the trip
count computed with unbounded integers; and at `lb = -2^63`, `ub = 2^63 - 1`,
`step = 1`, outside that precondition, the code returns the constant 0 with no
fault while the unbounded computation gives `2^64`. -/
theorem getTripCount_wraparound :
    (∀ (simplifyAffineExpr : AffineExpr → Nat → Nat → Option AffineExpr) (forStmt : ForStmt),
      forStmt.hasConstantBounds = true →
      forStmt.getStep ≠ 0 →
      isInt64 (forStmt.getConstantUpperBound - forStmt.getConstantLowerBound + 1) →
      ¬ (forStmt.getConstantUpperBound - forStmt.getConstantLowerBound + 1 = INT64_MIN ∧
        forStmt.getStep = -1) →
      getTripCount simplifyAffineExpr forStmt =
        tripCountOfSpanUnbounded
          (forStmt.getConstantUpperBound - forStmt.getConstantLowerBound + 1)
          forStmt.getStep) ∧
    getTripCount noSimplify (constantLoop INT64_MIN INT64_MAX 1) = .ok (some (.Constant 0)) ∧
    tripCountOfSpanUnbounded (INT64_MAX - INT64_MIN + 1) 1 =
      .ok (some (.Constant 18446744073709551616)) ∧
    getTripCount noSimplify (constantLoop INT64_MIN INT64_MAX 1) ≠
      tripCountOfSpanUnbounded (INT64_MAX - INT64_MIN + 1) 1 := by
  refine ⟨?_, by decide, by decide, by decide⟩
  intro simplifyAffineExpr forStmt hconst _ hI hpair
  rw [getTripCount_of_hasConstantBounds _ _ hconst, wrapInt64_of_isInt64 hI,
    tripCountOfSpan_eq_unbounded hI hpair]

/-- C18, at the loop `for i = -7 to 12 step 3` (span 20): the code returns what
the unbounded computation returns, the constant 7. -/
theorem getTripCount_wraparound_witness :
    getTripCount noSimplify (constantLoop (-7) 12 3) = tripCountOfSpanUnbounded 20 3 ∧
    tripCountOfSpanUnbounded 20 3 = .ok (some (.Constant 7)) :=
  ⟨getTripCount_wraparound.1 noSimplify (constantLoop (-7) 12 3) rfl (by decide) (by decide)
    (by decide), by decide⟩

/-! ## Sign of a constant trip count -/

/-- A constant produced by the unbounded reading of lines 84-91 is not negative. -/
theorem tripCountOfSpanUnbounded_constant_nonneg {loopSpan step v : Int}
    (h : tripCountOfSpanUnbounded loopSpan step = .ok (some (.Constant v))) : 0 ≤ v := by
  have key : ∀ a s : Int, 0 ≤ a → 1 ≤ s →
      tripCountOfSpanUnbounded a s = .ok (some (.Constant v)) → 0 ≤ v := by
    intro a s ha hs hv
    rw [tripCountOfSpanUnbounded_nonneg ha hs] at hv
    simp only [Except.ok.injEq, Option.some.injEq, AffineExpr.Constant.injEq] at hv
    have hq0 : 0 ≤ a / s := Int.ediv_nonneg ha (by omega)
    rw [← hv]
    split_ifs <;> omega
  by_cases hmis : (loopSpan < 0 ∧ step ≥ 1) ∨ (loopSpan > 0 ∧ step ≤ -1)
  · unfold tripCountOfSpanUnbounded at h
    rw [if_pos hmis] at h
    simp at h
  · by_cases hz : step = 0
    · unfold tripCountOfSpanUnbounded at h
      rw [if_neg hmis, if_pos hz] at h
      simp at h
    · rcases Int.lt_or_le 0 step with hpos | hneg
      · exact key loopSpan step (by omega) (by omega) h
      · rw [← tripCountOfSpanUnbounded_neg_neg] at h
        exact key (-loopSpan) (-step) (by omega) (by omega) h

/-- A constant produced by lines 84-91 from an `int64_t` span is not negative. -/
theorem tripCountOfSpan_constant_nonneg {loopSpan step v : Int} (hI : isInt64 loopSpan)
    (h : tripCountOfSpan loopSpan step = .ok (some (.Constant v))) : 0 ≤ v := by
  by_cases hpair : loopSpan = INT64_MIN ∧ step = -1
  · exfalso
    unfold tripCountOfSpan at h
    have hmis : ¬ ((loopSpan < 0 ∧ step ≥ 1) ∨ (loopSpan > 0 ∧ step ≤ -1)) := by
      obtain ⟨h1, h2⟩ := hpair
      unfold INT64_MIN at h1
      omega
    rw [if_neg hmis, if_neg (by omega), if_pos hpair] at h
    simp at h
  · rw [tripCountOfSpan_eq_unbounded hI hpair] at h
    exact tripCountOfSpanUnbounded_constant_nonneg h

/-- A constant returned by `getTripCount` comes from lines 84-91 applied to a
span that is an `int64_t`, given that the constants the simplifier produces are
64-bit values. -/
theorem tripCountOfSpan_of_getTripCount
    (simplifyAffineExpr : AffineExpr → Nat → Nat → Option AffineExpr) (forStmt : ForStmt)
    (v : Int)
    (hsimplify : ∀ e d s c, simplifyAffineExpr e d s = some (.Constant c) → isInt64 c)
    (hret : getTripCount simplifyAffineExpr forStmt = .ok (some (.Constant v))) :
    ∃ c, isInt64 c ∧ tripCountOfSpan c forStmt.getStep = .ok (some (.Constant v)) := by
  cases hc : forStmt.hasConstantBounds with
  | true =>
    rw [getTripCount_of_hasConstantBounds _ _ hc] at hret
    exact ⟨_, isInt64_wrapInt64 _, hret⟩
  | false =>
    have h := hret
    unfold getTripCount at h
    simp only [hc, Bool.false_eq_true, if_false] at h
    split_ifs at h with hgate
    · simp at h
    · split at h
      · simp at h
      · split_ifs at h
        · simp at h
        · split at h
          · split at h
            · rename_i c hexpr
              have hI : isInt64 c := by
                unfold loopSpanExpr at hexpr
                simp only at hexpr
                split at hexpr
                · rename_i expr hsome
                  subst hexpr
                  exact hsimplify _ _ _ c hsome
                · simp [AffineBinaryOpExpr.getAdd] at hexpr
              exact ⟨c, hI, h⟩
            · simp [AffineBinaryOpExpr.getCeilDiv] at h
          · simp at h

/-- The sample simplifier produces 64-bit constants. -/
theorem foldOffsets_isInt64 (e : AffineExpr) (d s : Nat) (c : Int)
    (h : foldOffsets e d s = some (.Constant c)) : isInt64 c := by
  unfold foldOffsets at h
  split at h
  · split_ifs at h
    simp only [Option.some.injEq, AffineExpr.Constant.injEq] at h
    rw [← h]
    exact isInt64_wrapInt64 _
  · simp at h

/-- C19: for every loop, with constant bounds or with non-constant bounds whose
span simplifies to a constant (the constants the simplifier produces being
64-bit values), whenever `getTripCount` returns `Constant(v)`, `v ≥ 0`, so the
conversion to `uint64_t` in `getConstantTripCount` leaves the value unchanged. -/
theorem getTripCount_constant_nonneg
    (simplifyAffineExpr : AffineExpr → Nat → Nat → Option AffineExpr) (forStmt : ForStmt)
    (v : Int)
    (hsimplify : ∀ e d s c, simplifyAffineExpr e d s = some (.Constant c) → isInt64 c)
    (hret : getTripCount simplifyAffineExpr forStmt = .ok (some (.Constant v))) :
    0 ≤ v ∧ ((toUInt64 v : Nat) : Int) = v ∧
      getConstantTripCount simplifyAffineExpr forStmt = .ok (some (toUInt64 v)) := by
  obtain ⟨c, hI, hc⟩ := tripCountOfSpan_of_getTripCount simplifyAffineExpr forStmt v
    hsimplify hret
  have hv : 0 ≤ v := tripCountOfSpan_constant_nonneg hI hc
  have hIv := isInt64_of_getTripCount simplifyAffineExpr forStmt v hret
  refine ⟨hv, toUInt64_of_nonneg hv hIv.2, ?_⟩
  unfold getConstantTripCount
  rw [hret]

/-- C19, at `for i = 0 to 9 step 3` (span 10), at the loop from
`(d0) -> (d0 + 0)` to `(d0) -> (d0 + 9)` with step 3 (span folding to 10) and at
`for i = 9 to 0 step -1` (span -8): the constants 4, 4 and 8 are returned and
read back unchanged. -/
theorem getTripCount_constant_nonneg_witness :
    ((0 : Int) ≤ 4 ∧ ((toUInt64 4 : Nat) : Int) = 4 ∧
      getConstantTripCount noSimplify (constantLoop 0 9 3) = .ok (some (toUInt64 4))) ∧
    ((0 : Int) ≤ 4 ∧ ((toUInt64 4 : Nat) : Int) = 4 ∧
      getConstantTripCount foldOffsets (offsetLoop 0 9 3) = .ok (some (toUInt64 4))) ∧
    ((0 : Int) ≤ 8 ∧ ((toUInt64 8 : Nat) : Int) = 8 ∧
      getConstantTripCount noSimplify (constantLoop 9 0 (-1)) = .ok (some (toUInt64 8))) :=
  ⟨getTripCount_constant_nonneg noSimplify (constantLoop 0 9 3) 4
      (by intro e d s c h; simp [noSimplify] at h) (by decide),
   getTripCount_constant_nonneg foldOffsets (offsetLoop 0 9 3) 4 foldOffsets_isInt64 (by decide),
   getTripCount_constant_nonneg noSimplify (constantLoop 9 0 (-1)) 8
      (by intro e d s c h; simp [noSimplify] at h) (by decide)⟩

/-- Lines 84-91 produce a value for every nonzero step, the division of `-2^63`
by `-1` apart. -/
theorem tripCountOfSpan_ok {loopSpan step : Int} (hstep : step ≠ 0)
    (hpair : ¬ (loopSpan = INT64_MIN ∧ step = -1)) :
    ∃ r, tripCountOfSpan loopSpan step = .ok r := by
  unfold tripCountOfSpan
  rw [if_neg hstep, if_neg hpair]
  split_ifs
  · exact ⟨_, rfl⟩
  · exact ⟨_, rfl⟩
  · exact ⟨_, rfl⟩

/-- C20: for two loops with constant bounds, if the span of the second is the
negation of the span `S` of the first (`S` and `-S` both `int64_t`) and its step
is the negation of the first step, `getTripCount` returns the same result for
both. -/
theorem getTripCount_reversal
    (simplifyAffineExpr : AffineExpr → Nat → Nat → Option AffineExpr)
    (forStmt reversed : ForStmt)
    (hconst : forStmt.hasConstantBounds = true)
    (hrevConst : reversed.hasConstantBounds = true)
    (hspan : isInt64 (forStmt.getConstantUpperBound - forStmt.getConstantLowerBound + 1))
    (hnegSpan : isInt64 (-(forStmt.getConstantUpperBound - forStmt.getConstantLowerBound + 1)))
    (hstep : forStmt.getStep ≠ 0)
    (hrevSpan : reversed.getConstantUpperBound - reversed.getConstantLowerBound + 1 =
      -(forStmt.getConstantUpperBound - forStmt.getConstantLowerBound + 1))
    (hrevStep : reversed.getStep = -forStmt.getStep) :
    getTripCount simplifyAffineExpr reversed = getTripCount simplifyAffineExpr forStmt ∧
    ∃ r, getTripCount simplifyAffineExpr forStmt = .ok r := by
  have hp1 : ¬ (forStmt.getConstantUpperBound - forStmt.getConstantLowerBound + 1 =
      INT64_MIN ∧ forStmt.getStep = -1) := by
    unfold isInt64 INT64_MIN INT64_MAX at hnegSpan; unfold INT64_MIN; omega
  have hp2 : ¬ (-(forStmt.getConstantUpperBound - forStmt.getConstantLowerBound + 1) =
      INT64_MIN ∧ -forStmt.getStep = -1) := by
    unfold isInt64 INT64_MIN INT64_MAX at hspan; unfold INT64_MIN; omega
  constructor
  · rw [getTripCount_of_hasConstantBounds _ _ hrevConst,
      getTripCount_of_hasConstantBounds _ _ hconst, hrevSpan, hrevStep,
      wrapInt64_of_isInt64 hspan, wrapInt64_of_isInt64 hnegSpan,
      tripCountOfSpan_neg_neg _ _ hp1 hp2]
  · rw [getTripCount_of_hasConstantBounds _ _ hconst, wrapInt64_of_isInt64 hspan]
    exact tripCountOfSpan_ok hstep hp1

/-- C20, at `for i = 0 to 9 step 3` (span 10) against `for i = 10 to -1 step -3`
(span -10): both get 4; and at `for i = 5 to 0 step 1` (span -4) against
`for i = 0 to 3 step -1` (span 4): both get the null pointer. -/
theorem getTripCount_reversal_witness :
    (getTripCount noSimplify (constantLoop 10 (-1) (-3)) =
        getTripCount noSimplify (constantLoop 0 9 3) ∧
      ∃ r, getTripCount noSimplify (constantLoop 0 9 3) = .ok r) ∧
    (getTripCount noSimplify (constantLoop 0 3 (-1)) =
        getTripCount noSimplify (constantLoop 5 0 1) ∧
      ∃ r, getTripCount noSimplify (constantLoop 5 0 1) = .ok r) :=
  ⟨getTripCount_reversal noSimplify (constantLoop 0 9 3) (constantLoop 10 (-1) (-3)) rfl rfl
      (by decide) (by decide) (by decide) (by decide) rfl,
   getTripCount_reversal noSimplify (constantLoop 5 0 1) (constantLoop 0 3 (-1)) rfl rfl
      (by decide) (by decide) (by decide) (by decide) rfl⟩


/-! ## Positivity of the largest divisor -/

end mlir
